import Mathlib

/-!
Verification development for the GhostDB repository.

The core of the system is the Solidity contract `GhostDocumentRegistry`
(the DocumentLedger of the spec): a registry of encrypted documents with
per-document editor sets, owner/editor indices and an opaque sealed
access-key handle per document.  The client-side `KeyEnvelopeCodec`
(`encryptBody` / `decryptBody`) and the `ReencryptionHandshake`
(`decryptAccessKey` in the frontend) are embedded further below.

Modelling conventions for the ledger:
  * an `Address` is a natural number; `0` is Solidity's `address(0)`;
    the EVM guarantees `msg.sender != address(0)`, so the step relation
    carries a `caller ≠ 0` hypothesis;
  * Solidity mappings are total functions with zero-initialised defaults,
    exactly as EVM storage behaves; a document "exists" iff its stored
    `owner` field is non-zero, which is the contract's `onlyExisting` test;
  * a reverting `require` is an `Except.error`; on error the transaction
    leaves the state unchanged (EVM revert), made explicit by the `...Tx`
    wrappers;
  * `FHE.fromExternal` (coprocessor proof verification) and `FHE.allow`
    (coprocessor ACL) are external primitives with no on-chain state in
    this contract; the verified handle is passed in as the opaque
    `storedKey` parameter and the coprocessor ACL is not modelled;
  * events are not modelled (no claim is about events).
-/

abbrev Address := Nat

/-- The `Document` struct of `GhostDocumentRegistry`. The `euint256`
access-key handle is opaque and modelled as a `Nat`. -/
structure Document where
  name : String
  encryptedBody : String
  encryptedAccessKey : Nat
  owner : Address
  lastEditor : Address
  createdAt : Nat
  updatedAt : Nat
deriving DecidableEq, Repr

/-- Zero-initialised EVM storage slot for a `Document`. -/
def emptyDocument : Document :=
  { name := "", encryptedBody := "", encryptedAccessKey := 0,
    owner := 0, lastEditor := 0, createdAt := 0, updatedAt := 0 }

/-- Storage of `GhostDocumentRegistry`: `_nextDocumentId`, `_documents`,
`_documentsByOwner`, `_documentsByEditor`, `_editors`. -/
structure RegistryState where
  nextDocumentId : Nat
  documents : Nat → Document
  documentsByOwner : Address → List Nat
  documentsByEditor : Address → List Nat
  editors : Nat → Address → Bool

/-- Error taxonomy of the spec for the ledger's reverts:
`invalidArgument` is "Name required" / "Invalid editor", `notFound` is
"Document does not exist" (the `onlyExisting` modifier), `notAuthorized`
is "Not authorized" / "Only owner can allow". -/
inductive LedgerError where
  | invalidArgument
  | notFound
  | notAuthorized
deriving DecidableEq, Repr

/-- The `onlyExisting` test: `_documents[documentId].owner != address(0)`. -/
def docExists (s : RegistryState) (documentId : Nat) : Bool :=
  (s.documents documentId).owner != 0

/-- Internal `_grantEditor`: if the editor flag is not yet set, set it and
push the id onto `_documentsByEditor[editor]`; otherwise do nothing. -/
def grantEditor (s : RegistryState) (documentId : Nat) (editor : Address) :
    RegistryState :=
  if s.editors documentId editor then s
  else
    { s with
      editors := fun i a =>
        if i = documentId ∧ a = editor then true else s.editors i a,
      documentsByEditor := fun a =>
        if a = editor then s.documentsByEditor a ++ [documentId]
        else s.documentsByEditor a }

/-- Operation `createDocument(name, encryptedAccessKey, inputProof)` called by
`caller` at ledger time `now`.  `storedKey` is the opaque handle returned
by `FHE.fromExternal` (external proof verification).  Reverts with
"Name required" on an empty name; otherwise allocates `_nextDocumentId++`,
fills the document record, pushes the id onto the caller's owner index and
grants the caller editor rights. -/
def createDocument (s : RegistryState) (caller : Address) (now : Nat)
    (name : String) (storedKey : Nat) :
    Except LedgerError (RegistryState × Nat) :=
  if name = "" then .error .invalidArgument
  else
    let documentId := s.nextDocumentId
    let doc : Document :=
      { name := name, encryptedBody := "", encryptedAccessKey := storedKey,
        owner := caller, lastEditor := caller,
        createdAt := now, updatedAt := now }
    let s1 : RegistryState :=
      { s with
        nextDocumentId := s.nextDocumentId + 1,
        documents := fun i => if i = documentId then doc else s.documents i,
        documentsByOwner := fun a =>
          if a = caller then s.documentsByOwner a ++ [documentId]
          else s.documentsByOwner a }
    .ok (grantEditor s1 documentId caller, documentId)

/-- Operation `updateDocument(documentId, encryptedBody)` called by `caller` at
ledger time `now`: `onlyExisting`, then `require(_editors[documentId]
[msg.sender])`, then replace the body, set `lastEditor` and `updatedAt`. -/
def updateDocument (s : RegistryState) (caller : Address) (now : Nat)
    (documentId : Nat) (encryptedBody : String) :
    Except LedgerError RegistryState :=
  if ¬ docExists s documentId then .error .notFound
  else if ¬ s.editors documentId caller then .error .notAuthorized
  else
    .ok { s with
      documents := fun i =>
        if i = documentId then
          { s.documents documentId with
            encryptedBody := encryptedBody,
            lastEditor := caller, updatedAt := now }
        else s.documents i }

/-- Operation `allowEditor(documentId, editor)` called by `caller`: `onlyExisting`,
then `require(editor != address(0))`, then `require(document.owner ==
msg.sender)`, then `_grantEditor`.  (`FHE.allow` on the key handle is a
coprocessor-side effect, not contract storage.) -/
def allowEditor (s : RegistryState) (caller : Address)
    (documentId : Nat) (editor : Address) :
    Except LedgerError RegistryState :=
  if ¬ docExists s documentId then .error .notFound
  else if editor = 0 then .error .invalidArgument
  else if ¬ ((s.documents documentId).owner = caller) then .error .notAuthorized
  else .ok (grantEditor s documentId editor)

/-- View `getDocument(documentId)`: `onlyExisting`, then the stored record. -/
def getDocument (s : RegistryState) (documentId : Nat) :
    Except LedgerError Document :=
  if ¬ docExists s documentId then .error .notFound
  else .ok (s.documents documentId)

/-- View `getDocumentsByOwner(ownerAddress)`. -/
def getDocumentsByOwner (s : RegistryState) (ownerAddress : Address) :
    List Nat :=
  s.documentsByOwner ownerAddress

/-- View `getDocumentsForEditor(editor)`. -/
def getDocumentsForEditor (s : RegistryState) (editor : Address) : List Nat :=
  s.documentsByEditor editor

/-- View `isEditor(documentId, account)`: `onlyExisting`, then the flag. -/
def isEditor (s : RegistryState) (documentId : Nat) (account : Address) :
    Except LedgerError Bool :=
  if ¬ docExists s documentId then .error .notFound
  else .ok (s.editors documentId account)

/-- EVM transaction semantics of `updateDocument`: a revert leaves the
pre-state in place and reports the error. -/
def updateDocumentTx (s : RegistryState) (caller : Address) (now : Nat)
    (documentId : Nat) (encryptedBody : String) :
    RegistryState × Option LedgerError :=
  match updateDocument s caller now documentId encryptedBody with
  | .ok s' => (s', none)
  | .error e => (s, some e)

/-- EVM transaction semantics of `allowEditor`: a revert leaves the
pre-state in place and reports the error. -/
def allowEditorTx (s : RegistryState) (caller : Address)
    (documentId : Nat) (editor : Address) :
    RegistryState × Option LedgerError :=
  match allowEditor s caller documentId editor with
  | .ok s' => (s', none)
  | .error e => (s, some e)

/-- Freshly deployed contract: `_nextDocumentId = 1`, empty storage. -/
def initialState : RegistryState :=
  { nextDocumentId := 1,
    documents := fun _ => emptyDocument,
    documentsByOwner := fun _ => [],
    documentsByEditor := fun _ => [],
    editors := fun _ _ => false }

/-- One successful mutating transaction of the registry.  The `caller ≠ 0`
hypothesis is the EVM guarantee that `msg.sender` is never `address(0)`. -/
inductive LedgerStep : RegistryState → RegistryState → Prop
  | create (s s' : RegistryState) (caller : Address) (now : Nat)
      (name : String) (storedKey : Nat) (documentId : Nat)
      (hc : caller ≠ 0)
      (h : createDocument s caller now name storedKey = .ok (s', documentId)) :
      LedgerStep s s'
  | update (s s' : RegistryState) (caller : Address) (now : Nat)
      (documentId : Nat) (encryptedBody : String)
      (hc : caller ≠ 0)
      (h : updateDocument s caller now documentId encryptedBody = .ok s') :
      LedgerStep s s'
  | allow (s s' : RegistryState) (caller : Address)
      (documentId : Nat) (editor : Address)
      (hc : caller ≠ 0)
      (h : allowEditor s caller documentId editor = .ok s') :
      LedgerStep s s'

/-- States reachable from a fresh deployment by successful transactions. -/
inductive LedgerReachable : RegistryState → Prop
  | init : LedgerReachable initialState
  | step {s s' : RegistryState} (hs : LedgerReachable s)
      (h : LedgerStep s s') : LedgerReachable s'

/-! ### The registry invariant -/

/-- Invariant of `GhostDocumentRegistry` maintained by every transaction:
ids of existing documents lie below `_nextDocumentId` (which starts at 1),
the owner of every existing document is in its editor set, editor flags
are only set for existing documents, the owner index lists exactly
documents owned by that address, the editor index mirrors the editor
flags, and both indices are duplicate-free. -/
structure RegistryInv (s : RegistryState) : Prop where
  nextPos : 1 ≤ s.nextDocumentId
  existsLt : ∀ id, docExists s id = true → id < s.nextDocumentId
  ownerEditor : ∀ id, docExists s id = true →
    s.editors id ((s.documents id).owner) = true
  editorExists : ∀ id a, s.editors id a = true → docExists s id = true
  ownerIdx : ∀ a id, id ∈ s.documentsByOwner a →
    docExists s id = true ∧ (s.documents id).owner = a
  editorIdx : ∀ id a, id ∈ s.documentsByEditor a ↔ s.editors id a = true
  ownerNodup : ∀ a, (s.documentsByOwner a).Nodup
  editorNodup : ∀ a, (s.documentsByEditor a).Nodup

/-! ### A concrete executable scenario

Account 5 deploys nothing special: it creates document 1 ("First Doc",
sealed key handle 77) at ledger time 10, and later grants account 9
editor rights.  These states ground the witnesses below. -/

def createState1 : RegistryState :=
  ((createDocument initialState 5 10 "First Doc" 77).toOption.getD
    (initialState, 0)).1

def allowState2 : RegistryState :=
  (allowEditor createState1 5 1 9).toOption.getD createState1

def updateState3 : RegistryState :=
  (updateDocument createState1 5 11 1 "updated-by-owner").toOption.getD
    createState1

/-! ### KeyEnvelopeCodec: `encryptBody` / `decryptBody`

The client-side codec derives an AES-GCM key from the hex access key via
SHA-256, draws a fresh 12-byte nonce, and stores `base64(nonce ∥
ciphertext)`; decryption splits the first 12 bytes off the decoded blob.

Modelling conventions:
  * bytes are `Nat`s and a byte sequence is a `List Nat`; the base64
    transport layer (`btoa`/`atob` composed in `bytesToBase64` /
    `base64ToBytes`) is a bijection on byte sequences and is modelled as
    the identity, so a "ciphertext blob" is the decoded byte sequence;
  * `TextEncoder`/`TextDecoder` are modelled as the character-code
    encoding of the string (an injective byte encoding, which is all the
    claims use);
  * `hexToBytes` is translated from the source: strip one leading "0x",
    then parse two hex characters per byte; JavaScript details modelled
    faithfully: a trailing odd character is written past the end of the
    `Uint8Array` and dropped, `parseInt` of a non-digit yields `NaN`
    which the `Uint8Array` stores as 0, and `parseInt` of a digit
    followed by a non-digit parses the valid one-digit prefix
    (`parseInt`'s whitespace/sign/0x-prefix corner cases are not
    modelled: access keys are plain hex strings);
  * the platform AES-GCM and SHA-256 primitives (`crypto.subtle`) are
    external: they are modelled as ideal primitives (see `sha256Digest`
    and `aesGcmEncrypt`), which is exactly what the spec assumes of its
    AEAD/hash primitives.
-/

/-- Crypto error taxonomy of the spec.  `integrityError` stands for the
single `OperationError` that `crypto.subtle.decrypt` raises when
AES-GCM authentication fails; `malformedInput` is the spec's name for a
distinct too-short-blob failure. -/
inductive CryptoErr where
  | integrityError
  | malformedInput
deriving DecidableEq, Repr

/-- Value of one hex digit, or `none` for a non-digit. -/
def hexDigitVal (c : Char) : Option Nat :=
  if '0' ≤ c ∧ c ≤ '9' then some (c.toNat - '0'.toNat)
  else if 'a' ≤ c ∧ c ≤ 'f' then some (c.toNat - 'a'.toNat + 10)
  else if 'A' ≤ c ∧ c ≤ 'F' then some (c.toNat - 'A'.toNat + 10)
  else none

/-- Semantics of `parseInt(hexPair, 16)` coerced through a `Uint8Array` cell: a full
pair parses both digits, a digit followed by a non-digit parses the
one-digit prefix, a leading non-digit gives `NaN` which is stored as 0. -/
def parseHexPair (c1 c2 : Char) : Nat :=
  match hexDigitVal c1 with
  | none => 0
  | some a =>
    match hexDigitVal c2 with
    | none => a
    | some b => 16 * a + b

/-- The loop of `hexToBytes`: one byte per two characters; a trailing odd
character targets index `cleanHex.length / 2`, which is out of bounds for
the `Uint8Array`, so it is dropped. -/
def hexPairsToBytes : List Char → List Nat
  | [] => []
  | [_] => []
  | c1 :: c2 :: rest => parseHexPair c1 c2 :: hexPairsToBytes rest

/-- Semantics of `hexValue.replace(/^0x/, "")`. -/
def strip0x : List Char → List Char
  | '0' :: 'x' :: rest => rest
  | l => l

/-- Function `hexToBytes` from the source: strip a leading "0x", parse hex pairs. -/
def hexToBytes (hexValue : String) : List Nat :=
  hexPairsToBytes (strip0x hexValue.toList)

/-- Modelled from the spec: SHA-256 (`crypto.subtle.digest`, a platform
primitive not in this repository) as an ideal digest; the development
uses only that it is deterministic and injective, which the spec's
one-way fixed-width derivation assumes for distinct keys. -/
def sha256Digest (bytes : List Nat) : List Nat := bytes

/-- Function `deriveKey`: SHA-256 of the decoded access-key bytes, imported as the
AES-GCM key. -/
def deriveKey (accessKey : String) : List Nat :=
  sha256Digest (hexToBytes accessKey)

/-- Injective encoding of a byte sequence into one `Nat`, used to build
ideal authentication tags. -/
def encodeListNat : List Nat → Nat
  | [] => 0
  | a :: l => 2 ^ a * (2 * encodeListNat l + 1)

/-- Modelled from the spec: the 16-byte AES-GCM authentication tag
(platform primitive) as an ideal MAC binding key, nonce and ciphertext. -/
def gcmTag (key iv ct : List Nat) : List Nat :=
  encodeListNat key :: encodeListNat iv :: encodeListNat ct ::
    List.replicate 13 0

/-- Modelled from the spec: ideal AES-GCM encryption
(`crypto.subtle.encrypt`): the returned buffer is the ciphertext followed
by the 16-entry authentication tag.  (The claims never inspect ciphertext
contents, so the keystream is not modelled.) -/
def aesGcmEncrypt (key iv plain : List Nat) : List Nat :=
  plain ++ gcmTag key iv plain

/-- Modelled from the spec: ideal AES-GCM decryption
(`crypto.subtle.decrypt`): reject buffers shorter than the tag, split off
the 16-entry tag, recompute and compare it; `none` is the single
`OperationError` the platform raises on any failure. -/
def aesGcmDecrypt (key iv payload : List Nat) : Option (List Nat) :=
  if payload.length < 16 then none
  else
    let ct := payload.take (payload.length - 16)
    let tag := payload.drop (payload.length - 16)
    if tag = gcmTag key iv ct then some ct else none

/-- Platform `TextEncoder.encode`, modelled as the character-code byte encoding. -/
def encoderEncode (s : String) : List Nat :=
  s.toList.map Char.toNat

/-- Platform `TextDecoder.decode`, inverse of `encoderEncode`. -/
def decoderDecode (bytes : List Nat) : String :=
  String.mk (bytes.map Char.ofNat)

/-- Function `encryptBody(plainText, accessKey)` with the 12-byte random nonce
`iv` (drawn by `crypto.getRandomValues`) passed explicitly: derive the
key, encrypt, return (the base64 of) `iv ∥ ciphertext`. -/
def encryptBody (plainText : String) (accessKey : String)
    (iv : List Nat) : List Nat :=
  let key := deriveKey accessKey
  let cipherBuffer := aesGcmEncrypt key iv (encoderEncode plainText)
  iv ++ cipherBuffer

/-- Function `decryptBody(cipherText, accessKey)`: decode the blob, split the
first 12 bytes off as the nonce (`combined.slice(0, 12)` /
`combined.slice(12)`), decrypt, decode the plaintext.  Any platform
decryption failure surfaces as `integrityError`. -/
def decryptBody (cipherText : List Nat) (accessKey : String) :
    Except CryptoErr String :=
  let key := deriveKey accessKey
  let iv := cipherText.take 12
  let payload := cipherText.drop 12
  match aesGcmDecrypt key iv payload with
  | some plainBuffer => .ok (decoderDecode plainBuffer)
  | none => .error .integrityError

/-! ### ReencryptionHandshake: `decryptAccessKey` (frontend)

The frontend recovers a document's access key by (1) generating a fresh
ephemeral keypair with the relayer SDK, (2) building an EIP-712
structured, domain-separated message over the ephemeral public key, the
contract address list, the current start timestamp and a fixed 7-day
duration, (3) signing it with the wallet's long-term signing key, and
(4) submitting the handle/contract pair, the ephemeral public key, the
signature and the window to the SDK's `userDecrypt`.

The SDK primitives (`generateKeypair`, `createEIP712`, `signTypedData`,
`userDecrypt`) are external packages, modelled symbolically: a signature
is an opaque term binding exactly the signer key and the structured
message — constructor injectivity is the symbolic counterpart of an
unforgeable, domain-separated signature.  The ephemeral keypair is drawn
once per call by `generateKeypair` and is modelled as a per-call input;
`Date.now()` (milliseconds) is the `nowMs` input. -/

/-- Modelled from the spec: output of the relayer SDK's
`generateKeypair`, the per-run ephemeral keypair. -/
structure Keypair where
  publicKey : Nat
  privateKey : Nat
deriving DecidableEq, Repr

/-- Modelled from the spec: the EIP-712 structured, domain-separated
message built by `createEIP712(publicKey, contractAddresses,
startTimeStamp, durationDays)`. -/
structure EIP712Message where
  publicKey : Nat
  contractAddresses : List Nat
  startTimeStamp : Nat
  durationDays : Nat
deriving DecidableEq, Repr

/-- Function `createEIP712` of the relayer SDK. -/
def createEIP712 (publicKey : Nat) (contractAddresses : List Nat)
    (startTimeStamp durationDays : Nat) : EIP712Message :=
  { publicKey := publicKey, contractAddresses := contractAddresses,
    startTimeStamp := startTimeStamp, durationDays := durationDays }

/-- Modelled from the spec: `signer.signTypedData` — a symbolic
signature binding exactly the long-term signer key and the structured
message (constructor injectivity models unforgeability and domain
separation). -/
structure TypedSignature where
  signerKey : Nat
  message : EIP712Message
deriving DecidableEq, Repr

/-- The signing step of the handshake. -/
def signTypedData (signerKey : Nat) (message : EIP712Message) :
    TypedSignature :=
  { signerKey := signerKey, message := message }

/-- The tuple submitted to the SDK's `userDecrypt`: handle/contract
pair, ephemeral public key, ephemeral private key (used locally to
decrypt the response), signature, contract list, user address and the
validity window. -/
structure UserDecryptRequest where
  handle : Nat
  contractAddress : Nat
  publicKey : Nat
  privateKey : Nat
  signature : TypedSignature
  contractAddresses : List Nat
  userAddress : Nat
  startTimeStamp : Nat
  durationDays : Nat
deriving DecidableEq, Repr

/-- The `durationDays = '7'` constant of `decryptAccessKey`. -/
def handshakeDurationDays : Nat := 7

/-- The request-building data flow of `decryptAccessKey(doc)` in
`DocumentApp.tsx`: `startTimeStamp = Math.floor(Date.now() / 1000)`,
`durationDays = 7`, `eip712 = createEIP712(keypair.publicKey,
[contract], startTimeStamp, durationDays)`, `signature =
signTypedData(...)`, then `userDecrypt(handleContractPairs,
keypair.privateKey, keypair.publicKey, signature, contractAddresses,
address, startTimeStamp, durationDays)`. -/
def decryptAccessKeyRequest (keypair : Keypair) (nowMs : Nat)
    (handle contractAddr signerKey userAddr : Nat) : UserDecryptRequest :=
  let startTimeStamp := nowMs / 1000
  let durationDays := handshakeDurationDays
  let contractAddresses := [contractAddr]
  let eip712 := createEIP712 keypair.publicKey contractAddresses
    startTimeStamp durationDays
  let signature := signTypedData signerKey eip712
  { handle := handle, contractAddress := contractAddr,
    publicKey := keypair.publicKey, privateKey := keypair.privateKey,
    signature := signature, contractAddresses := contractAddresses,
    userAddress := userAddr, startTimeStamp := startTimeStamp,
    durationDays := durationDays }


/-! ### Basic lemmas about the registry operations -/

theorem grantEditor_nextDocumentId (s : RegistryState) (documentId : Nat)
    (editor : Address) :
    (grantEditor s documentId editor).nextDocumentId = s.nextDocumentId := by
  unfold grantEditor; split <;> rfl

theorem grantEditor_documents (s : RegistryState) (documentId : Nat)
    (editor : Address) :
    (grantEditor s documentId editor).documents = s.documents := by
  unfold grantEditor; split <;> rfl

theorem grantEditor_documentsByOwner (s : RegistryState) (documentId : Nat)
    (editor : Address) :
    (grantEditor s documentId editor).documentsByOwner = s.documentsByOwner := by
  unfold grantEditor; split <;> rfl

theorem grantEditor_editors (s : RegistryState) (documentId : Nat)
    (editor : Address) (i : Nat) (a : Address) :
    (grantEditor s documentId editor).editors i a =
      if i = documentId ∧ a = editor then true else s.editors i a := by
  unfold grantEditor
  split
  · rename_i hflag
    split
    · rename_i hia
      obtain ⟨h1, h2⟩ := hia
      subst h1; subst h2; exact hflag
    · rfl
  · rfl

theorem grantEditor_documentsByEditor (s : RegistryState) (documentId : Nat)
    (editor : Address) (a : Address) :
    (grantEditor s documentId editor).documentsByEditor a =
      if a = editor ∧ s.editors documentId editor = false then
        s.documentsByEditor a ++ [documentId]
      else s.documentsByEditor a := by
  unfold grantEditor
  split
  · rename_i hflag
    split
    · rename_i hcond
      exact absurd hflag (by simp [hcond.2])
    · rfl
  · rename_i hflag
    simp only [Bool.not_eq_true] at hflag
    simp [hflag]

theorem grantEditor_eq_self {s : RegistryState} {documentId : Nat}
    {editor : Address} (h : s.editors documentId editor = true) :
    grantEditor s documentId editor = s := by
  unfold grantEditor
  rw [if_pos h]

theorem createDocument_ok {s s' : RegistryState} {caller : Address}
    {now : Nat} {name : String} {storedKey documentId : Nat}
    (h : createDocument s caller now name storedKey = .ok (s', documentId)) :
    name ≠ "" ∧ documentId = s.nextDocumentId ∧
      s' = grantEditor
        { s with
          nextDocumentId := s.nextDocumentId + 1,
          documents := fun i =>
            if i = s.nextDocumentId then
              { name := name, encryptedBody := "",
                encryptedAccessKey := storedKey,
                owner := caller, lastEditor := caller,
                createdAt := now, updatedAt := now }
            else s.documents i,
          documentsByOwner := fun a =>
            if a = caller then s.documentsByOwner a ++ [s.nextDocumentId]
            else s.documentsByOwner a }
        s.nextDocumentId caller := by
  unfold createDocument at h
  split at h
  · exact absurd h (by simp)
  · rename_i hname
    simp only [Except.ok.injEq, Prod.mk.injEq] at h
    exact ⟨hname, h.2.symm, h.1.symm⟩

theorem updateDocument_ok {s s' : RegistryState} {caller : Address}
    {now : Nat} {documentId : Nat} {encryptedBody : String}
    (h : updateDocument s caller now documentId encryptedBody = .ok s') :
    docExists s documentId = true ∧
      s.editors documentId caller = true ∧
      s' = { s with
        documents := fun i =>
          if i = documentId then
            { s.documents documentId with
              encryptedBody := encryptedBody,
              lastEditor := caller, updatedAt := now }
          else s.documents i } := by
  unfold updateDocument at h
  split at h
  · exact absurd h (by simp)
  · split at h
    · exact absurd h (by simp)
    · rename_i hex hed
      simp only [Bool.not_eq_true] at hex hed
      simp only [Except.ok.injEq] at h
      refine ⟨by simpa using hex, by simpa using hed, h.symm⟩

theorem allowEditor_ok {s s' : RegistryState} {caller : Address}
    {documentId : Nat} {editor : Address}
    (h : allowEditor s caller documentId editor = .ok s') :
    docExists s documentId = true ∧ editor ≠ 0 ∧
      (s.documents documentId).owner = caller ∧
      s' = grantEditor s documentId editor := by
  unfold allowEditor at h
  split at h
  · exact absurd h (by simp)
  · split at h
    · exact absurd h (by simp)
    · split at h
      · exact absurd h (by simp)
      · rename_i hex hz hown
        simp only [Except.ok.injEq] at h
        exact ⟨by simpa using hex, hz, by simpa using hown, h.symm⟩

theorem registryInv_initial : RegistryInv initialState := by
  constructor <;>
    simp [initialState, docExists, emptyDocument, getDocumentsByOwner,
      getDocumentsForEditor]

theorem registryInv_create {s s' : RegistryState} {caller : Address}
    {now : Nat} {name : String} {storedKey documentId : Nat}
    (inv : RegistryInv s) (hc : caller ≠ 0)
    (h : createDocument s caller now name storedKey = .ok (s', documentId)) :
    RegistryInv s' := by
  obtain ⟨-, -, hs'⟩ := createDocument_ok h
  set nid := s.nextDocumentId with hnid
  have hnotex : docExists s nid = false := by
    cases hex : docExists s nid
    · rfl
    · exact absurd (inv.existsLt nid hex) (lt_irrefl nid)
  have hflag : s.editors nid caller = false := by
    cases hfl : s.editors nid caller
    · rfl
    · rw [inv.editorExists nid caller hfl] at hnotex; cases hnotex
  have hdocs : ∀ i, s'.documents i =
      if i = nid then
        { name := name, encryptedBody := "",
          encryptedAccessKey := storedKey,
          owner := caller, lastEditor := caller,
          createdAt := now, updatedAt := now }
      else s.documents i := by
    intro i; rw [hs', grantEditor_documents]
  have hnext : s'.nextDocumentId = nid + 1 := by
    rw [hs', grantEditor_nextDocumentId]
  have hbyOwner : ∀ a, s'.documentsByOwner a =
      if a = caller then s.documentsByOwner a ++ [nid]
      else s.documentsByOwner a := by
    intro a; rw [hs', grantEditor_documentsByOwner]
  have heds : ∀ i a, s'.editors i a =
      if i = nid ∧ a = caller then true else s.editors i a := by
    intro i a; rw [hs', grantEditor_editors]
  have hbyEd : ∀ a, s'.documentsByEditor a =
      if a = caller then s.documentsByEditor a ++ [nid]
      else s.documentsByEditor a := by
    intro a
    rw [hs', grantEditor_documentsByEditor]
    simp only [hflag, and_true]
  have hex' : ∀ i, docExists s' i =
      if i = nid then true else docExists s i := by
    intro i
    simp only [docExists, hdocs i]
    split
    · simpa using hc
    · rfl
  constructor
  · rw [hnext]; omega
  · intro id hid
    rw [hex'] at hid
    rw [hnext]
    split at hid
    · omega
    · exact Nat.lt_succ_of_lt (inv.existsLt id hid)
  · intro id hid
    rw [hex'] at hid
    rw [heds, hdocs]
    split at hid
    · rename_i hidn
      subst hidn
      simp
    · rename_i hidn
      simp only [if_neg hidn]
      have := inv.ownerEditor id hid
      simp [this]
  · intro id a hid
    rw [heds] at hid
    rw [hex']
    split at hid
    · rename_i hcon
      simp [hcon.1]
    · rename_i hcon
      have := inv.editorExists id a hid
      split
      · rfl
      · exact this
  · intro a id hid
    rw [hbyOwner] at hid
    rw [hex', hdocs]
    split at hid
    · rename_i ha
      subst ha
      rcases List.mem_append.mp hid with hold | hnew
      · obtain ⟨he, ho⟩ := inv.ownerIdx a id hold
        have hne : id ≠ nid := by
          intro hcon; rw [hcon] at he; rw [he] at hnotex; cases hnotex
        simp only [if_neg hne]
        exact ⟨he, ho⟩
      · have : id = nid := by simpa using hnew
        subst this
        simp
    · rename_i ha
      obtain ⟨he, ho⟩ := inv.ownerIdx a id hid
      have hne : id ≠ nid := by
        intro hcon; rw [hcon] at he; rw [he] at hnotex; cases hnotex
      simp only [if_neg hne]
      exact ⟨he, ho⟩
  · intro id a
    rw [hbyEd, heds]
    split
    · rename_i ha
      subst ha
      constructor
      · intro hmem
        rcases List.mem_append.mp hmem with hold | hnew
        · have := (inv.editorIdx id a).mp hold
          split
          · rfl
          · exact this
        · have : id = nid := by simpa using hnew
          simp [this]
      · intro htrue
        split at htrue
        · rename_i hcon
          simp [hcon.1]
        · exact List.mem_append.mpr (Or.inl ((inv.editorIdx id a).mpr htrue))
    · rename_i ha
      rw [inv.editorIdx id a]
      split
      · rename_i hcon
        exact absurd hcon.2 ha
      · rfl
  · intro a
    rw [hbyOwner]
    split
    · rename_i ha
      subst ha
      refine List.Nodup.append (inv.ownerNodup a) (by simp) ?_
      intro x hx hy
      have : x = nid := by simpa using hy
      subst this
      obtain ⟨he, -⟩ := inv.ownerIdx a nid hx
      rw [he] at hnotex; cases hnotex
    · exact inv.ownerNodup a
  · intro a
    rw [hbyEd]
    split
    · rename_i ha
      subst ha
      refine List.Nodup.append (inv.editorNodup a) (by simp) ?_
      intro x hx hy
      have : x = nid := by simpa using hy
      subst this
      have := (inv.editorIdx nid a).mp hx
      rw [this] at hflag; cases hflag
    · exact inv.editorNodup a

theorem registryInv_update {s s' : RegistryState} {caller : Address}
    {now : Nat} {documentId : Nat} {encryptedBody : String}
    (inv : RegistryInv s)
    (h : updateDocument s caller now documentId encryptedBody = .ok s') :
    RegistryInv s' := by
  obtain ⟨-, -, hs'⟩ := updateDocument_ok h
  have howner : ∀ i, (s'.documents i).owner = (s.documents i).owner := by
    intro i
    rw [hs']
    by_cases hi : i = documentId <;> simp [hi]
  have hex' : ∀ i, docExists s' i = docExists s i := by
    intro i; simp [docExists, howner i]
  have hnext : s'.nextDocumentId = s.nextDocumentId := by rw [hs']
  have heds : s'.editors = s.editors := by rw [hs']
  have hbyOwner : s'.documentsByOwner = s.documentsByOwner := by rw [hs']
  have hbyEd : s'.documentsByEditor = s.documentsByEditor := by rw [hs']
  constructor
  · rw [hnext]; exact inv.nextPos
  · intro id hid
    rw [hex'] at hid
    rw [hnext]
    exact inv.existsLt id hid
  · intro id hid
    rw [hex'] at hid
    rw [heds, howner]
    exact inv.ownerEditor id hid
  · intro id a hid
    rw [heds] at hid
    rw [hex']
    exact inv.editorExists id a hid
  · intro a id hid
    rw [hbyOwner] at hid
    rw [hex', howner]
    exact inv.ownerIdx a id hid
  · intro id a
    rw [hbyEd, heds]
    exact inv.editorIdx id a
  · intro a; rw [hbyOwner]; exact inv.ownerNodup a
  · intro a; rw [hbyEd]; exact inv.editorNodup a

theorem registryInv_allow {s s' : RegistryState} {caller : Address}
    {documentId : Nat} {editor : Address}
    (inv : RegistryInv s)
    (h : allowEditor s caller documentId editor = .ok s') :
    RegistryInv s' := by
  obtain ⟨hex, -, -, hs'⟩ := allowEditor_ok h
  have hdocs : s'.documents = s.documents := by
    rw [hs', grantEditor_documents]
  have hex' : ∀ i, docExists s' i = docExists s i := by
    intro i; simp [docExists, hdocs]
  have hnext : s'.nextDocumentId = s.nextDocumentId := by
    rw [hs', grantEditor_nextDocumentId]
  have hbyOwner : s'.documentsByOwner = s.documentsByOwner := by
    rw [hs', grantEditor_documentsByOwner]
  have heds : ∀ i a, s'.editors i a =
      if i = documentId ∧ a = editor then true else s.editors i a := by
    intro i a; rw [hs', grantEditor_editors]
  have hbyEd : ∀ a, s'.documentsByEditor a =
      if a = editor ∧ s.editors documentId editor = false then
        s.documentsByEditor a ++ [documentId]
      else s.documentsByEditor a := by
    intro a; rw [hs', grantEditor_documentsByEditor]
  constructor
  · rw [hnext]; exact inv.nextPos
  · intro id hid
    rw [hex'] at hid
    rw [hnext]
    exact inv.existsLt id hid
  · intro id hid
    rw [hex'] at hid
    rw [heds, hdocs]
    have := inv.ownerEditor id hid
    simp [this]
  · intro id a hid
    rw [heds] at hid
    rw [hex']
    split at hid
    · rename_i hcon
      rw [hcon.1]
      exact hex
    · exact inv.editorExists id a hid
  · intro a id hid
    rw [hbyOwner] at hid
    rw [hex', hdocs]
    exact inv.ownerIdx a id hid
  · intro id a
    rw [hbyEd, heds]
    split
    · rename_i hcond
      obtain ⟨ha, hflag⟩ := hcond
      subst ha
      constructor
      · intro hmem
        rcases List.mem_append.mp hmem with hold | hnew
        · have := (inv.editorIdx id a).mp hold
          split
          · rfl
          · exact this
        · have : id = documentId := by simpa using hnew
          simp [this]
      · intro htrue
        split at htrue
        · rename_i hcon
          simp [hcon.1]
        · exact List.mem_append.mpr (Or.inl ((inv.editorIdx id a).mpr htrue))
    · rename_i hcond
      rw [inv.editorIdx id a]
      split
      · rename_i hcon
        have hflag : s.editors id a = true := by
          rcases Bool.eq_false_or_eq_true (s.editors documentId editor) with
            ht | hf
          · rw [hcon.1, hcon.2]; exact ht
          · exact absurd ⟨hcon.2, hf⟩ hcond
        simp [hflag]
      · rfl
  · intro a; rw [hbyOwner]; exact inv.ownerNodup a
  · intro a
    rw [hbyEd]
    split
    · rename_i hcond
      obtain ⟨ha, hflag⟩ := hcond
      subst ha
      refine List.Nodup.append (inv.editorNodup a) (by simp) ?_
      intro x hx hy
      have hxd : x = documentId := by simpa using hy
      rw [hxd] at hx
      have := (inv.editorIdx documentId a).mp hx
      rw [this] at hflag; cases hflag
    · exact inv.editorNodup a

theorem registryInv_step {s s' : RegistryState} (inv : RegistryInv s)
    (h : LedgerStep s s') : RegistryInv s' := by
  cases h with
  | create caller now name storedKey documentId hc hop =>
    exact registryInv_create inv hc hop
  | update caller now documentId encryptedBody hc hop =>
    exact registryInv_update inv hop
  | allow caller documentId editor hc hop =>
    exact registryInv_allow inv hop

theorem registryInv_reachable {s : RegistryState}
    (hs : LedgerReachable s) : RegistryInv s := by
  induction hs with
  | init => exact registryInv_initial
  | step hs h ih => exact registryInv_step ih h

/-! ### Monotonicity of the authorization state -/

theorem editors_mono_step {s s' : RegistryState} (h : LedgerStep s s')
    {i : Nat} {a : Address} (he : s.editors i a = true) :
    s'.editors i a = true := by
  cases h with
  | create caller now name storedKey documentId hc hop =>
    obtain ⟨-, -, hs'⟩ := createDocument_ok hop
    rw [hs', grantEditor_editors]
    split
    · rfl
    · exact he
  | update caller now documentId encryptedBody hc hop =>
    obtain ⟨-, -, hs'⟩ := updateDocument_ok hop
    rw [hs']
    exact he
  | allow caller documentId editor hc hop =>
    obtain ⟨-, -, -, hs'⟩ := allowEditor_ok hop
    rw [hs', grantEditor_editors]
    split
    · rfl
    · exact he

theorem docExists_mono_step {s s' : RegistryState} (h : LedgerStep s s')
    {i : Nat} (he : docExists s i = true) : docExists s' i = true := by
  cases h with
  | create caller now name storedKey documentId hc hop =>
    obtain ⟨-, -, hs'⟩ := createDocument_ok hop
    rw [hs']
    simp only [docExists, grantEditor_documents]
    by_cases hi : i = s.nextDocumentId
    · simp [hi, hc]
    · simpa [docExists, hi] using he
  | update caller now documentId encryptedBody hc hop =>
    obtain ⟨-, -, hs'⟩ := updateDocument_ok hop
    rw [hs']
    simp only [docExists]
    by_cases hi : i = documentId
    · subst hi; simpa [docExists] using he
    · simpa [docExists, hi] using he
  | allow caller documentId editor hc hop =>
    obtain ⟨-, -, -, hs'⟩ := allowEditor_ok hop
    rw [hs']
    simpa [docExists, grantEditor_documents] using he

theorem nextDocumentId_mono_step {s s' : RegistryState}
    (h : LedgerStep s s') : s.nextDocumentId ≤ s'.nextDocumentId := by
  cases h with
  | create caller now name storedKey documentId hc hop =>
    obtain ⟨-, -, hs'⟩ := createDocument_ok hop
    rw [hs', grantEditor_nextDocumentId]
    exact Nat.le_succ _
  | update caller now documentId encryptedBody hc hop =>
    obtain ⟨-, -, hs'⟩ := updateDocument_ok hop
    rw [hs']
  | allow caller documentId editor hc hop =>
    obtain ⟨-, -, -, hs'⟩ := allowEditor_ok hop
    rw [hs', grantEditor_nextDocumentId]

theorem documentsByOwner_append_step {s s' : RegistryState}
    (h : LedgerStep s s') (a : Address) :
    ∃ t, s'.documentsByOwner a = s.documentsByOwner a ++ t := by
  cases h with
  | create caller now name storedKey documentId hc hop =>
    obtain ⟨-, -, hs'⟩ := createDocument_ok hop
    rw [hs', grantEditor_documentsByOwner]
    by_cases hac : a = caller
    · exact ⟨[s.nextDocumentId], by simp [hac]⟩
    · exact ⟨[], by simp [hac]⟩
  | update caller now documentId encryptedBody hc hop =>
    obtain ⟨-, -, hs'⟩ := updateDocument_ok hop
    rw [hs']
    exact ⟨[], by simp⟩
  | allow caller documentId editor hc hop =>
    obtain ⟨-, -, -, hs'⟩ := allowEditor_ok hop
    rw [hs', grantEditor_documentsByOwner]
    exact ⟨[], by simp⟩

theorem documentsByEditor_append_step {s s' : RegistryState}
    (h : LedgerStep s s') (a : Address) :
    ∃ t, s'.documentsByEditor a = s.documentsByEditor a ++ t := by
  cases h with
  | create caller now name storedKey documentId hc hop =>
    obtain ⟨-, -, hs'⟩ := createDocument_ok hop
    rw [hs', grantEditor_documentsByEditor]
    split
    · exact ⟨[s.nextDocumentId], rfl⟩
    · exact ⟨[], by simp⟩
  | update caller now documentId encryptedBody hc hop =>
    obtain ⟨-, -, hs'⟩ := updateDocument_ok hop
    rw [hs']
    exact ⟨[], by simp⟩
  | allow caller documentId editor hc hop =>
    obtain ⟨-, -, -, hs'⟩ := allowEditor_ok hop
    rw [hs', grantEditor_documentsByEditor]
    split
    · exact ⟨[documentId], rfl⟩
    · exact ⟨[], by simp⟩

theorem isEditor_ok_true_iff (s : RegistryState) (i : Nat) (a : Address) :
    isEditor s i a = .ok true ↔
      docExists s i = true ∧ s.editors i a = true := by
  unfold isEditor
  split
  · rename_i hex
    simp only [Bool.not_eq_true] at hex
    simp [hex]
  · rename_i hex
    simp only [Bool.not_eq_true, not_not] at hex
    simp only [Bool.not_eq_false] at hex
    simp [hex]

theorem isEditor_mono_steps {s s' : RegistryState}
    (h : Relation.ReflTransGen LedgerStep s s') {i : Nat} {a : Address}
    (he : isEditor s i a = .ok true) : isEditor s' i a = .ok true := by
  induction h with
  | refl => exact he
  | tail hst hstep ih =>
    obtain ⟨hex, hed⟩ := (isEditor_ok_true_iff _ _ _).mp ih
    exact (isEditor_ok_true_iff _ _ _).mpr
      ⟨docExists_mono_step hstep hex, editors_mono_step hstep hed⟩

theorem createState1_spec :
    createDocument initialState 5 10 "First Doc" 77 =
      .ok (createState1, 1) := rfl

theorem createState1_reachable : LedgerReachable createState1 :=
  .step .init
    (.create initialState createState1 5 10 "First Doc" 77 1
      (by decide) createState1_spec)

theorem allowState2_spec :
    allowEditor createState1 5 1 9 = .ok allowState2 := rfl

theorem allowState2_step : LedgerStep createState1 allowState2 :=
  .allow createState1 allowState2 5 1 9 (by decide) allowState2_spec

theorem allowState2_reachable : LedgerReachable allowState2 :=
  .step createState1_reachable allowState2_step

/-! ### Claims about the DocumentLedger -/

/-- C1: in every reachable state the owner of every existing document is a
member of its editor set, and once `isEditor(id, a)` returns `true` it
returns `true` in every subsequent state: no operation removes an editor. -/
theorem claim_C1_authorization_monotone (s : RegistryState)
    (hs : LedgerReachable s) :
    (∀ id, docExists s id = true →
      s.editors id ((s.documents id).owner) = true) ∧
    (∀ s', Relation.ReflTransGen LedgerStep s s' → ∀ id a,
      isEditor s id a = .ok true → isEditor s' id a = .ok true) :=
  ⟨(registryInv_reachable hs).ownerEditor,
   fun _ h _ _ he => isEditor_mono_steps h he⟩

theorem claim_C1_witness :
    createState1.editors 1 ((createState1.documents 1).owner) = true ∧
    isEditor allowState2 1 5 = .ok true :=
  ⟨(claim_C1_authorization_monotone createState1
      createState1_reachable).1 1 rfl,
   (claim_C1_authorization_monotone createState1
      createState1_reachable).2 allowState2
     (Relation.ReflTransGen.single allowState2_step) 1 5 rfl⟩

/-- C2: `updateDocument` fails with `NotFound` on a missing document and
with `NotAuthorized` when the caller is not in the editor set; every
failure leaves the state unchanged (EVM revert); on success it replaces
`encryptedBody` byte-for-byte, sets `lastEditor` to the caller and
`updatedAt` to the ledger time. -/
theorem claim_C2_updateDocument_guards (s : RegistryState)
    (caller : Address) (now : Nat) (documentId : Nat) (newBody : String) :
    (docExists s documentId = false →
      updateDocument s caller now documentId newBody = .error .notFound) ∧
    (docExists s documentId = true → s.editors documentId caller = false →
      updateDocument s caller now documentId newBody =
        .error .notAuthorized) ∧
    (∀ e, updateDocument s caller now documentId newBody = .error e →
      updateDocumentTx s caller now documentId newBody = (s, some e)) ∧
    (∀ s', updateDocument s caller now documentId newBody = .ok s' →
      s.editors documentId caller = true ∧
      (s'.documents documentId).encryptedBody = newBody ∧
      (s'.documents documentId).lastEditor = caller ∧
      (s'.documents documentId).updatedAt = now) := by
  refine ⟨?_, ?_, ?_, ?_⟩
  · intro hex
    unfold updateDocument
    simp [hex]
  · intro hex hed
    unfold updateDocument
    simp [hex, hed]
  · intro e he
    unfold updateDocumentTx
    rw [he]
  · intro s' h
    obtain ⟨hex, hed, hs'⟩ := updateDocument_ok h
    refine ⟨hed, ?_, ?_, ?_⟩ <;> rw [hs'] <;> simp

/-- C3: a successful `createDocument` by a non-zero caller with non-empty
name yields a fresh document whose record reads back with that name, an
empty body, owner = lastEditor = caller and createdAt = updatedAt = now;
an empty name is rejected with `InvalidArgument`. -/
theorem claim_C3_createDocument_fields (s : RegistryState)
    (caller : Address) (now : Nat) (name : String) (storedKey : Nat)
    (hc : caller ≠ 0) :
    (name = "" →
      createDocument s caller now name storedKey =
        .error .invalidArgument) ∧
    (∀ s' documentId,
      createDocument s caller now name storedKey = .ok (s', documentId) →
      name ≠ "" ∧
      getDocument s' documentId = .ok
        { name := name, encryptedBody := "",
          encryptedAccessKey := storedKey,
          owner := caller, lastEditor := caller,
          createdAt := now, updatedAt := now }) := by
  constructor
  · intro hname
    unfold createDocument
    simp [hname]
  · intro s' documentId h
    obtain ⟨hname, hid, hs'⟩ := createDocument_ok h
    refine ⟨hname, ?_⟩
    subst hid
    unfold getDocument
    rw [hs']
    simp [docExists, grantEditor_documents, hc]

/-- C5 (amended): `allowEditor` fails with `NotFound` on a missing
document; with `InvalidArgument` on the zero editor identity (this check
runs before the ownership check); with `NotAuthorized` when the editor is
non-zero and the caller is not the owner; and every failure leaves the
state — in particular the editor set — unchanged. -/
theorem claim_C5_allowEditor_guards (s : RegistryState) (caller : Address)
    (documentId : Nat) (editor : Address) :
    (docExists s documentId = false →
      allowEditor s caller documentId editor = .error .notFound) ∧
    (docExists s documentId = true → editor = 0 →
      allowEditor s caller documentId editor = .error .invalidArgument) ∧
    (docExists s documentId = true → editor ≠ 0 →
      (s.documents documentId).owner ≠ caller →
      allowEditor s caller documentId editor = .error .notAuthorized) ∧
    (∀ e, allowEditor s caller documentId editor = .error e →
      allowEditorTx s caller documentId editor = (s, some e)) := by
  refine ⟨?_, ?_, ?_, ?_⟩
  · intro hex
    unfold allowEditor
    simp [hex]
  · intro hex hz
    unfold allowEditor
    simp [hex, hz]
  · intro hex hz hown
    unfold allowEditor
    simp [hex, hz, hown]
  · intro e he
    unfold allowEditorTx
    rw [he]

/-- C5, the claim as stated, is false: on an existing document, a
non-owner caller passing the zero editor identity is rejected with
`InvalidArgument`, not `NotAuthorized` — the zero-identity check runs
before the ownership check. -/
theorem claim_C5_counterexample :
    (createState1.documents 1).owner ≠ 9 ∧
    docExists createState1 1 = true ∧
    allowEditor createState1 9 1 0 = .error .invalidArgument ∧
    LedgerError.invalidArgument ≠ LedgerError.notAuthorized :=
  ⟨by decide, rfl, rfl, by decide⟩

/-- C8: document ids are allocated monotonically: `_nextDocumentId`
starts at 1 and never decreases, every existing document has an id below
it, and a successful `createDocument` returns exactly `_nextDocumentId`
— an id that never belonged to any document — then increments it. -/
theorem claim_C8_monotonic_ids (s : RegistryState)
    (hs : LedgerReachable s) :
    1 ≤ s.nextDocumentId ∧
    (∀ id, docExists s id = true → id < s.nextDocumentId) ∧
    (∀ caller now name storedKey s' documentId,
      createDocument s caller now name storedKey = .ok (s', documentId) →
      documentId = s.nextDocumentId ∧
      s'.nextDocumentId = s.nextDocumentId + 1 ∧
      docExists s documentId = false) ∧
    (∀ s', Relation.ReflTransGen LedgerStep s s' →
      s.nextDocumentId ≤ s'.nextDocumentId) := by
  have inv := registryInv_reachable hs
  refine ⟨inv.nextPos, inv.existsLt, ?_, ?_⟩
  · intro caller now name storedKey s' documentId h
    obtain ⟨-, hid, hs'⟩ := createDocument_ok h
    subst hid
    refine ⟨rfl, ?_, ?_⟩
    · rw [hs', grantEditor_nextDocumentId]
    · cases hex : docExists s s.nextDocumentId
      · rfl
      · exact absurd (inv.existsLt _ hex) (lt_irrefl _)
  · intro s' h
    induction h with
    | refl => exact le_refl _
    | tail hst hstep ih => exact le_trans ih (nextDocumentId_mono_step hstep)

/-- C10: in every reachable state, the owner index lists only existing
documents owned by that address, the editor index lists only documents
for which `isEditor` returns `true`, both indices are duplicate-free, and
each transaction only ever appends to them. -/
theorem claim_C10_index_consistency (s : RegistryState)
    (hs : LedgerReachable s) :
    (∀ a id, id ∈ getDocumentsByOwner s a →
      docExists s id = true ∧ (s.documents id).owner = a) ∧
    (∀ a id, id ∈ getDocumentsForEditor s a → isEditor s id a = .ok true) ∧
    (∀ a, (getDocumentsByOwner s a).Nodup ∧
      (getDocumentsForEditor s a).Nodup) ∧
    (∀ s', LedgerStep s s' → ∀ a,
      (∃ t, getDocumentsByOwner s' a = getDocumentsByOwner s a ++ t) ∧
      (∃ t, getDocumentsForEditor s' a =
        getDocumentsForEditor s a ++ t)) := by
  have inv := registryInv_reachable hs
  refine ⟨?_, ?_, ?_, ?_⟩
  · intro a id hid
    exact inv.ownerIdx a id hid
  · intro a id hid
    have hed := (inv.editorIdx id a).mp hid
    exact (isEditor_ok_true_iff _ _ _).mpr ⟨inv.editorExists id a hed, hed⟩
  · intro a
    exact ⟨inv.ownerNodup a, inv.editorNodup a⟩
  · intro s' h a
    exact ⟨documentsByOwner_append_step h a,
      documentsByEditor_append_step h a⟩

/-- C4: granting an editor is idempotent: from any reachable state, the
owner granting the same (non-zero) editor twice yields exactly the state
of granting once — in particular the same editor set — and the editor
index then lists the document exactly once; the duplicate grant is a
no-op on the index but still succeeds. -/
theorem claim_C4_allowEditor_idempotent (s : RegistryState)
    (hs : LedgerReachable s) (documentId : Nat) (caller editor : Address)
    (hex : docExists s documentId = true)
    (hown : (s.documents documentId).owner = caller)
    (hed : editor ≠ 0) :
    ∃ s1, allowEditor s caller documentId editor = .ok s1 ∧
      allowEditor s1 caller documentId editor = .ok s1 ∧
      (getDocumentsForEditor s1 editor).count documentId = 1 := by
  have h1 : allowEditor s caller documentId editor =
      .ok (grantEditor s documentId editor) := by
    unfold allowEditor
    simp [hex, hed, hown]
  refine ⟨grantEditor s documentId editor, h1, ?_, ?_⟩
  · have hex1 : docExists (grantEditor s documentId editor) documentId =
        true := by
      simpa [docExists, grantEditor_documents] using hex
    have hown1 : ((grantEditor s documentId editor).documents
        documentId).owner = caller := by
      rw [grantEditor_documents]; exact hown
    have hflag1 : (grantEditor s documentId editor).editors documentId
        editor = true := by
      rw [grantEditor_editors]; simp
    have hsame : grantEditor (grantEditor s documentId editor) documentId
        editor = grantEditor s documentId editor :=
      grantEditor_eq_self hflag1
    unfold allowEditor
    simp [hex1, hown1, hed, hsame]
  · have hcne : caller ≠ 0 := by
      intro hcon
      rw [hcon] at hown
      simp [docExists, hown] at hex
    have hstep : LedgerStep s (grantEditor s documentId editor) :=
      .allow s (grantEditor s documentId editor) caller documentId editor
        hcne h1
    have inv1 := registryInv_reachable (.step hs hstep)
    have hflag1 : (grantEditor s documentId editor).editors documentId
        editor = true := by
      rw [grantEditor_editors]; simp
    have hmem := (inv1.editorIdx documentId editor).mpr hflag1
    exact List.count_eq_one_of_mem (inv1.editorNodup editor) hmem

theorem claim_C4_witness :
    ∃ s1, allowEditor createState1 5 1 9 = .ok s1 ∧
      allowEditor s1 5 1 9 = .ok s1 ∧
      (getDocumentsForEditor s1 9).count 1 = 1 :=
  claim_C4_allowEditor_idempotent createState1 createState1_reachable
    1 5 9 rfl rfl (by decide)

/-! ### Remaining ledger witnesses -/

theorem updateState3_spec :
    updateDocument createState1 5 11 1 "updated-by-owner" =
      .ok updateState3 := rfl

theorem claim_C2_witness :
    updateDocument createState1 9 11 1 "x" = .error .notAuthorized ∧
    updateDocumentTx createState1 9 11 1 "x" =
      (createState1, some .notAuthorized) ∧
    ((updateState3.documents 1).encryptedBody = "updated-by-owner" ∧
      (updateState3.documents 1).lastEditor = 5 ∧
      (updateState3.documents 1).updatedAt = 11) :=
  ⟨(claim_C2_updateDocument_guards createState1 9 11 1 "x").2.1 rfl rfl,
   (claim_C2_updateDocument_guards createState1 9 11 1 "x").2.2.1
     .notAuthorized
     ((claim_C2_updateDocument_guards createState1 9 11 1 "x").2.1
       rfl rfl),
   ((claim_C2_updateDocument_guards createState1 5 11 1
       "updated-by-owner").2.2.2 updateState3 updateState3_spec).2⟩

theorem claim_C3_witness :
    createDocument initialState 5 10 "" 77 = .error .invalidArgument ∧
    getDocument createState1 1 = .ok
      { name := "First Doc", encryptedBody := "", encryptedAccessKey := 77,
        owner := 5, lastEditor := 5, createdAt := 10, updatedAt := 10 } :=
  ⟨(claim_C3_createDocument_fields initialState 5 10 "" 77
      (by decide)).1 rfl,
   ((claim_C3_createDocument_fields initialState 5 10 "First Doc" 77
      (by decide)).2 createState1 1 createState1_spec).2⟩

theorem claim_C5_witness :
    allowEditor initialState 5 1 9 = .error .notFound ∧
    allowEditor createState1 5 1 0 = .error .invalidArgument ∧
    allowEditor createState1 9 1 9 = .error .notAuthorized ∧
    allowEditorTx createState1 9 1 9 =
      (createState1, some .notAuthorized) :=
  ⟨(claim_C5_allowEditor_guards initialState 5 1 9).1 rfl,
   (claim_C5_allowEditor_guards createState1 5 1 0).2.1 rfl rfl,
   (claim_C5_allowEditor_guards createState1 9 1 9).2.2.1 rfl
     (by decide) (by decide),
   (claim_C5_allowEditor_guards createState1 9 1 9).2.2.2 .notAuthorized
     ((claim_C5_allowEditor_guards createState1 9 1 9).2.2.1 rfl
       (by decide) (by decide))⟩

theorem claim_C8_witness :
    1 ≤ initialState.nextDocumentId ∧
    (1 = initialState.nextDocumentId ∧
      createState1.nextDocumentId = initialState.nextDocumentId + 1 ∧
      docExists initialState 1 = false) ∧
    initialState.nextDocumentId ≤ allowState2.nextDocumentId :=
  ⟨(claim_C8_monotonic_ids initialState .init).1,
   (claim_C8_monotonic_ids initialState .init).2.2.1 5 10 "First Doc" 77
     createState1 1 createState1_spec,
   (claim_C8_monotonic_ids initialState .init).2.2.2 allowState2
     (Relation.ReflTransGen.trans
       (Relation.ReflTransGen.single
         (.create initialState createState1 5 10 "First Doc" 77 1
           (by decide) createState1_spec))
       (Relation.ReflTransGen.single allowState2_step))⟩

theorem claim_C10_witness :
    (docExists createState1 1 = true ∧
      (createState1.documents 1).owner = 5) ∧
    isEditor createState1 1 5 = .ok true ∧
    (getDocumentsByOwner createState1 5).Nodup ∧
    (∃ t, getDocumentsForEditor allowState2 9 =
      getDocumentsForEditor createState1 9 ++ t) :=
  ⟨(claim_C10_index_consistency createState1 createState1_reachable).1
     5 1 (by decide),
   (claim_C10_index_consistency createState1 createState1_reachable).2.1
     5 1 (by decide),
   ((claim_C10_index_consistency createState1
      createState1_reachable).2.2.1 5).1,
   ((claim_C10_index_consistency createState1
      createState1_reachable).2.2.2 allowState2 allowState2_step 9).2⟩

/-! ### Lemmas about the codec -/

theorem two_pow_mul_odd_inj (a : Nat) : ∀ b x y : Nat,
    2 ^ a * (2 * x + 1) = 2 ^ b * (2 * y + 1) → a = b ∧ x = y := by
  induction a with
  | zero =>
    intro b x y h
    cases b with
    | zero =>
      rw [pow_zero, one_mul, one_mul] at h
      exact ⟨rfl, by omega⟩
    | succ b =>
      exfalso
      have h2 : (2 : Nat) ^ (b + 1) * (2 * y + 1) =
          2 * (2 ^ b * (2 * y + 1)) := by ring
      rw [h2, pow_zero, one_mul] at h
      omega
  | succ a ih =>
    intro b x y h
    cases b with
    | zero =>
      exfalso
      have h2 : (2 : Nat) ^ (a + 1) * (2 * x + 1) =
          2 * (2 ^ a * (2 * x + 1)) := by ring
      rw [h2, pow_zero, one_mul] at h
      omega
    | succ b =>
      have h1 : (2 : Nat) ^ (a + 1) * (2 * x + 1) =
          2 * (2 ^ a * (2 * x + 1)) := by ring
      have h2 : (2 : Nat) ^ (b + 1) * (2 * y + 1) =
          2 * (2 ^ b * (2 * y + 1)) := by ring
      rw [h1, h2] at h
      have h' := Nat.eq_of_mul_eq_mul_left (by omega : 0 < 2) h
      obtain ⟨hab, hxy⟩ := ih b x y h'
      exact ⟨by omega, hxy⟩

theorem encodeListNat_pos (a : Nat) (l : List Nat) :
    0 < encodeListNat (a :: l) := by
  unfold encodeListNat
  have h1 : 0 < 2 ^ a := Nat.pos_pow_of_pos a (by omega)
  have h2 : 0 < 2 * encodeListNat l + 1 := by omega
  exact Nat.mul_pos h1 h2

theorem encodeListNat_inj : ∀ l1 l2 : List Nat,
    encodeListNat l1 = encodeListNat l2 → l1 = l2 := by
  intro l1
  induction l1 with
  | nil =>
    intro l2 h
    cases l2 with
    | nil => rfl
    | cons b m =>
      exfalso
      have := encodeListNat_pos b m
      rw [← h] at this
      simp [encodeListNat] at this
  | cons a l ih =>
    intro l2 h
    cases l2 with
    | nil =>
      exfalso
      have := encodeListNat_pos a l
      rw [h] at this
      simp [encodeListNat] at this
    | cons b m =>
      unfold encodeListNat at h
      obtain ⟨hab, hlm⟩ := two_pow_mul_odd_inj a b _ _ h
      rw [hab, ih m hlm]

theorem gcmTag_length (key iv ct : List Nat) : (gcmTag key iv ct).length = 16 := by
  simp [gcmTag]

theorem aesGcmDecrypt_encrypt (key iv plain : List Nat) :
    aesGcmDecrypt key iv (aesGcmEncrypt key iv plain) = some plain := by
  unfold aesGcmDecrypt aesGcmEncrypt
  have hlen : (plain ++ gcmTag key iv plain).length = plain.length + 16 := by
    simp [gcmTag_length]
  rw [if_neg (by omega)]
  simp only [hlen, Nat.add_sub_cancel]
  have htake : (plain ++ gcmTag key iv plain).take plain.length = plain := by
    simp
  have hdrop : (plain ++ gcmTag key iv plain).drop plain.length =
      gcmTag key iv plain := by
    simp
  rw [htake, hdrop, if_pos rfl]

theorem aesGcmDecrypt_wrong_key (key key' iv plain : List Nat)
    (hk : key' ≠ key) :
    aesGcmDecrypt key' iv (aesGcmEncrypt key iv plain) = none := by
  unfold aesGcmDecrypt aesGcmEncrypt
  have hlen : (plain ++ gcmTag key iv plain).length = plain.length + 16 := by
    simp [gcmTag_length]
  rw [if_neg (by omega)]
  simp only [hlen, Nat.add_sub_cancel]
  have htake : (plain ++ gcmTag key iv plain).take plain.length = plain := by
    simp
  have hdrop : (plain ++ gcmTag key iv plain).drop plain.length =
      gcmTag key iv plain := by
    simp
  rw [htake, hdrop]
  rw [if_neg ?_]
  intro hcon
  unfold gcmTag at hcon
  have : encodeListNat key = encodeListNat key' := by
    injection hcon with h1 _
  exact hk (encodeListNat_inj key' key (by rw [this]))

theorem decoderDecode_encoderEncode (s : String) :
    decoderDecode (encoderEncode s) = s := by
  unfold decoderDecode encoderEncode
  rw [List.map_map]
  have : (Char.ofNat ∘ Char.toNat) = id := by
    funext c
    exact Char.ofNat_toNat c
  rw [this, List.map_id]
  cases s
  rfl

theorem encryptBody_take (p k : String) (iv : List Nat)
    (hiv : iv.length = 12) : (encryptBody p k iv).take 12 = iv := by
  unfold encryptBody
  rw [← hiv]
  simp

theorem encryptBody_drop (p k : String) (iv : List Nat)
    (hiv : iv.length = 12) :
    (encryptBody p k iv).drop 12 =
      aesGcmEncrypt (deriveKey k) iv (encoderEncode p) := by
  unfold encryptBody
  rw [← hiv]
  simp

/-- C6 (amended): `decryptBody ∘ encryptBody` is the identity under the
correct key, and decryption with any key whose decoded byte sequence
differs fails with `IntegrityError`.  (Distinct hex spellings that decode
to the same bytes — e.g. differing only in case — decrypt successfully,
which is why the claim's "any different key string" form is false.) -/
theorem claim_C6_roundtrip (p k k' : String) (iv : List Nat)
    (hiv : iv.length = 12) :
    decryptBody (encryptBody p k iv) k = .ok p ∧
    (hexToBytes k' ≠ hexToBytes k →
      decryptBody (encryptBody p k iv) k' = .error .integrityError) := by
  constructor
  · unfold decryptBody
    rw [encryptBody_take p k iv hiv, encryptBody_drop p k iv hiv]
    simp [aesGcmDecrypt_encrypt, decoderDecode_encoderEncode]
  · intro hk
    have hk' : deriveKey k' ≠ deriveKey k := by
      intro hcon
      exact hk (by unfold deriveKey sha256Digest at hcon; exact hcon)
    unfold decryptBody
    rw [encryptBody_take p k iv hiv, encryptBody_drop p k iv hiv]
    simp [aesGcmDecrypt_wrong_key _ _ _ _ hk']

theorem claim_C6_witness :
    (List.replicate 12 0).length = 12 ∧
    hexToBytes "01" ≠ hexToBytes "00" ∧
    decryptBody (encryptBody "hi" "00" (List.replicate 12 0)) "00" =
      .ok "hi" ∧
    decryptBody (encryptBody "hi" "00" (List.replicate 12 0)) "01" =
      .error .integrityError :=
  ⟨by decide, by decide,
   (claim_C6_roundtrip "hi" "00" "01" (List.replicate 12 0)
      (by decide)).1,
   (claim_C6_roundtrip "hi" "00" "01" (List.replicate 12 0)
      (by decide)).2 (by decide)⟩

/-- C6 as stated is false: "0A" and "0a" are different key strings, but
they decode to the same byte (the hex parse is case-insensitive), derive
the same AES key, and so decryption succeeds instead of failing with
`IntegrityError`. -/
theorem claim_C6_counterexample :
    ("0A" : String) ≠ "0a" ∧
    decryptBody (encryptBody "secret" "0A" (List.replicate 12 0)) "0a" =
      .ok "secret" :=
  ⟨by decide, rfl⟩

/-- C7 (amended): a blob whose decoded byte length is below the 12-byte
nonce width always fails to decrypt, but with the same `IntegrityError`
(the platform's single `OperationError`) as a failed tag check —
`decryptBody` has no separate malformed-input path. -/
theorem claim_C7_short_blob (blob : List Nat) (k : String)
    (h : blob.length < 12) :
    decryptBody blob k = .error .integrityError := by
  unfold decryptBody
  have hdrop : blob.drop 12 = [] := List.drop_eq_nil_of_le (by omega)
  rw [hdrop]
  unfold aesGcmDecrypt
  simp

theorem claim_C7_witness :
    decryptBody [0] "ff" = .error .integrityError :=
  claim_C7_short_blob [0] "ff" (by decide)

/-- C7 as stated is false: a 3-byte blob (shorter than the 12-byte
nonce) makes `decryptBody` fail with `IntegrityError`, not with a
distinct `MalformedInput`. -/
theorem claim_C7_counterexample :
    ([1, 2, 3] : List Nat).length < 12 ∧
    decryptBody [1, 2, 3] "ab" = .error .integrityError ∧
    CryptoErr.integrityError ≠ CryptoErr.malformedInput :=
  ⟨by decide, rfl, by decide⟩

/-- C9: every handshake run submits the freshly generated ephemeral
public key, a start timestamp equal to the current time (seconds), a
fixed 7-day validity window, and a structured, domain-separated
signature by the caller's long-term key over exactly (ephemeral public
key, contract address, start time, duration); the submitted tuple
carries the handle, the ephemeral public key, the signature and the
window, and the signature determines its signer and message uniquely. -/
theorem claim_C9_handshake (keypair : Keypair) (nowMs : Nat)
    (handle contractAddr signerKey userAddr : Nat) :
    (decryptAccessKeyRequest keypair nowMs handle contractAddr signerKey
        userAddr).handle = handle ∧
    (decryptAccessKeyRequest keypair nowMs handle contractAddr signerKey
        userAddr).publicKey = keypair.publicKey ∧
    (decryptAccessKeyRequest keypair nowMs handle contractAddr signerKey
        userAddr).startTimeStamp = nowMs / 1000 ∧
    (decryptAccessKeyRequest keypair nowMs handle contractAddr signerKey
        userAddr).durationDays = 7 ∧
    (decryptAccessKeyRequest keypair nowMs handle contractAddr signerKey
        userAddr).signature = signTypedData signerKey
      (createEIP712 keypair.publicKey [contractAddr] (nowMs / 1000) 7) ∧
    (∀ signerKey' message', signTypedData signerKey' message' =
        (decryptAccessKeyRequest keypair nowMs handle contractAddr
          signerKey userAddr).signature →
      signerKey' = signerKey ∧
      message' = createEIP712 keypair.publicKey [contractAddr]
        (nowMs / 1000) 7) := by
  refine ⟨rfl, rfl, rfl, rfl, rfl, ?_⟩
  intro signerKey' message' h
  have h' : TypedSignature.mk signerKey' message' =
      TypedSignature.mk signerKey (createEIP712 keypair.publicKey
        [contractAddr] (nowMs / 1000) 7) := h
  injection h' with h1 h2
  exact ⟨h1, h2⟩

theorem claim_C9_witness :
    (decryptAccessKeyRequest ⟨33, 44⟩ 123456 7 900 55 66).publicKey =
      33 ∧
    (decryptAccessKeyRequest ⟨33, 44⟩ 123456 7 900 55 66).startTimeStamp
      = 123 ∧
    (decryptAccessKeyRequest ⟨33, 44⟩ 123456 7 900 55 66).durationDays =
      7 ∧
    (55 = 55 ∧ createEIP712 33 [900] 123 7 = createEIP712 33 [900] 123 7) :=
  ⟨(claim_C9_handshake ⟨33, 44⟩ 123456 7 900 55 66).2.1,
   (claim_C9_handshake ⟨33, 44⟩ 123456 7 900 55 66).2.2.1,
   (claim_C9_handshake ⟨33, 44⟩ 123456 7 900 55 66).2.2.2.1,
   (claim_C9_handshake ⟨33, 44⟩ 123456 7 900 55 66).2.2.2.2.2 55
     (createEIP712 33 [900] 123 7) rfl⟩
